import Mathlib

/-!
Formal model of the `vite-plugin-for-shopify` plugin.

The definitions below are a shallow embedding of the plugin's code
(`src/dist/index.mjs`, current version, and the legacy single-plugin
source file).  Pure computations (entry-name resolution, the recursive
`handleEntryImports` traversal, snippet assembly, the stale-file filter)
are translated into Lean functions; the file-system effects of the
`closeBundle` hook are modelled by an explicit effect record computed
from the environment's answers (does the manifest exist, did the JSON
parse, did the write succeed).  The recursive traversal in the source
has no cycle guard, so the embedding threads an explicit fuel counter;
exhausted fuel and a dangling `imports` reference (a thrown exception
in the source) both surface as `none`.
-/

namespace ShopifyVite

/-- One record of the bundler manifest, as destructured by `closeBundle`:
`{ isEntry, css = [], imports = [], name, src, file }`. -/
structure ManifestEntry where
  isEntry : Bool := false
  name : Option String := none
  src : String
  file : String
  css : List String := []
  imports : List String := []
  deriving Repr, DecidableEq

/-- The manifest: an insertion-ordered mapping from manifest key to record
(`Object.values` / `manifest[imp]` in the source). -/
abbrev Manifest : Type := List (String × ManifestEntry)

/-- Lookup `manifest[imp]` (manifest keys are unique). -/
def manifestLookup (m : Manifest) (k : String) : Option ManifestEntry :=
  List.lookup k m

/-- Word `w` as a regular expression (concatenation of its characters). -/
def mstr : List Char → RegularExpression Char
  | [] => 1
  | c :: cs => RegularExpression.char c * mstr cs

/-- The source's `styleRegex`, the pattern of the literal
regex (dot, then the alternation of sa, sc, c, then ss),
anchored at the end of the string by `rTestEnd`. -/
def styleRegex : RegularExpression Char :=
  mstr ['.'] * (mstr ['s', 'a'] + mstr ['s', 'c'] + mstr ['c']) * mstr ['s', 's']

/-- JavaScript `regex.test(s)` for an end-anchored pattern: some suffix of
`s` (a match starting at any position and ending at the end) is in the
pattern's language. -/
def rTestEnd (r : RegularExpression Char) (s : String) : Bool :=
  (List.range (s.data.length + 1)).any fun i => r.rmatch (s.data.drop i)

/-- The source's `isStyles`. -/
def isStyles (src : String) : Bool := rTestEnd styleRegex src

/-- `Set.prototype.add` on an insertion-ordered set of strings. -/
def addUnique (l : List String) (x : String) : List String :=
  if x ∈ l then l else l ++ [x]

/-- The source's recursive `handleEntryImports`, accumulating the
insertion-ordered `styleFiles` set: a stylesheet node contributes its
`file` and is a leaf; a script node contributes its `css` list and the
loop `imports.forEach(imp => handleEntryImports(manifest[imp]))` recurses.
`fuel` bounds the recursion depth (the source has no cycle guard);
exhausted fuel, or a dangling `imports` key (which throws in the source),
yields `none`. -/
def handleEntryImports (m : Manifest) : Nat → ManifestEntry → List String → Option (List String)
  | 0, _, _ => none
  | fuel + 1, e, acc =>
    if isStyles e.src then
      some (addUnique acc e.file)
    else
      e.imports.foldlM
        (fun a imp =>
          match manifestLookup m imp with
          | none => none
          | some e2 => handleEntryImports m fuel e2 a)
        (e.css.foldl addUnique acc)

/-- The `imports.forEach` loop of `handleEntryImports`, named for the
unfolding lemmas below. -/
def handleImportsList (m : Manifest) (fuel : Nat) (l : List String) (acc : List String) :
    Option (List String) :=
  l.foldlM
    (fun a imp =>
      match manifestLookup m imp with
      | none => none
      | some e2 => handleEntryImports m fuel e2 a)
    acc

/-- Per-entry resolution: the `styleFiles` set from the traversal started
at the entry's own record with an empty set, and the `jsFiles` set
(`!isStyles(src) && jsFiles.add(file)`). -/
def resolveEntry (m : Manifest) (fuel : Nat) (e : ManifestEntry) :
    Option (List String × List String) :=
  (handleEntryImports m fuel e []).map fun styles =>
    (styles, if isStyles e.src then [] else [e.file])

/-- Path normalization applied to configured input values:
a leading dot-slash is stripped. -/
def stripDotSlash (p : String) : String :=
  if p.data.take 2 = ['.', '/'] then String.mk (p.data.drop 2) else p

/-- The `entryNameByPath` reverse index built from
`build.rollupOptions.input`: later assignments overwrite earlier ones. -/
def entryNameByPath (input : List (String × String)) : String → Option String :=
  input.foldl (fun acc kv => fun p => if p = stripDotSlash kv.2 then some kv.1 else acc p)
    (fun _ => none)

/-- JavaScript `String.prototype.lastIndexOf` for a single character:
index of the last occurrence, or `-1`. -/
def lastIdxAux (c : Char) : List Char → Nat → Int → Int
  | [], _, best => best
  | x :: xs, i, best => lastIdxAux c xs (i + 1) (if x = c then Int.ofNat i else best)

/-- JavaScript `s.lastIndexOf(c)`. -/
def jsLastIndexOf (l : List Char) (c : Char) : Int := lastIdxAux c l 0 (-1)

/-- Clamp a JavaScript `substring` argument into `[0, len]`. -/
def clampIdx (n : Int) (len : Nat) : Nat := (max 0 (min n (len : Int))).toNat

/-- JavaScript `s.substring(a, b)`: both arguments clamped into the string,
swapped when out of order. -/
def jsSubstring (s : String) (a b : Int) : String :=
  let len := s.data.length
  let a2 := clampIdx a len
  let b2 := clampIdx b len
  let lo := min a2 b2
  let hi := max a2 b2
  String.mk ((s.data.drop lo).take (hi - lo))

/-- The naming fallback's last step:
`src.substring(src.lastIndexOf(slash) + 1, src.lastIndexOf(dot))`. -/
def jsStem (src : String) : String :=
  jsSubstring src (jsLastIndexOf src.data '/' + 1) (jsLastIndexOf src.data '.')

/-- The `entryName` computation:
`name ?? entryNameByPath[src] ?? src.substring(...)`. -/
def resolveEntryName (input : List (String × String)) (e : ManifestEntry) : String :=
  match e.name with
  | some n => n
  | none =>
    match entryNameByPath input e.src with
    | some k => k
    | none => jsStem e.src


/-- The source's `assignScriptFiles`: the per-branch assignment binding the
pipe-joined script files. -/
def assignScriptFiles (fileNames : List String) : String :=
  "\n      assign js_files = \"" ++ String.intercalate "|" fileNames ++ "\""

/-- The source's `assignStyleFiles`: the per-branch assignment binding the
pipe-joined style files. -/
def assignStyleFiles (fileNames : List String) : String :=
  "\n      assign style_files = \"" ++ String.intercalate "|" fileNames ++ "\""

/-- The source's `entryTag`: one dispatch branch of the generated case
statement. -/
def entryTag (entryName assets : String) : String :=
  "\n    when '" ++ entryName ++ "'" ++ assets

/-- The `assets` array pushed for one entry: the style assignment when the
style set is non-empty, then the script assignment when the script set is
non-empty. -/
def entryAssets (styleFiles jsFiles : List String) : List String :=
  (if styleFiles.length > 0 then [assignStyleFiles styleFiles] else [])
    ++ (if jsFiles.length > 0 then [assignScriptFiles jsFiles] else [])

/-- The fixed prologue of the generated snippet (the template literal
`snippetStart`, with the dynamic-import helper name substituted). -/
def snippetStart : String :=
  "\n  # ------------------------------------------------------------\n  #\n  # IMPORTANT:\n  #\n  # Do not edit this file directly.\n  # This file is generated automatically by vite plugin.\n  # \n  # ------------------------------------------------------------\n  #\n  # IMPORTANT:\n  #\n  # If you use dynamic imports, then you need to add this snippet\n  # once to your theme without any parameters\n  # it will add helper function for correct urls of dynamic imports\n  # \x7b\x7b render 'vite' \x7d\x7d\n  #\n  # ------------------------------------------------------------\n  #\n  # PARAMETERS:\n  #\n  # @param \x7bstring\x7d entry - entry name, as in the vite.config.js\n  # @param \x7bboolean\x7d preload_stylesheet - add preload for stylesheets\n  # @param \x7bboolean\x7d only_css - add only css files\n  # @param \x7bboolean\x7d only_js - add only js files\n  #\n  # ------------------------------------------------------------\n  #\n  # EXTRA PARAMETERS:\n  #\n  # @param \x7bboolean\x7d import_mode - for cases when you need to import\n  # styles to styles - @import url(\"...\");\n  # modules to scripts - import \x7b\x7b import_name \x7d\x7d from '...';\n  # @param \x7bboolean\x7d import_name - import name for js modules\n  # for example \"\x7b funcName \x7d\"\n  # @param \x7bboolean\x7d dynamic_import - for case when you need to import\n  # js module asynchronously\n  #\n  # ------------------------------------------------------------\n  #\n  # USAGE EXAMPLES:\n  #\n  # - default\n  # \x7b\x7b render 'vite', entry: 'entryName' \x7d\x7d\n  # - default and preload styles\n  # \x7b\x7b render 'vite', entry: 'entryName', preload_stylesheet: true \x7d\x7d\n  # - only styles\n  # \x7b\x7b render 'vite', entry: 'entryName', only_css: true \x7d\x7d\n  # - only scripts\n  # \x7b\x7b render 'vite', entry: 'entryName', only_js: true \x7d\x7d\n  # - import styles\n  # \x7b\x7b render 'vite', entry: 'entryName', import_mode: true, only_css: true \x7d\x7d\n  # - import js module\n  # \x7b\x7b render 'vite', entry: 'entryName', import_mode: true, only_js: true, import_name: '\x7b funcName \x7d' \x7d\x7d\n  # - import js module asynchronously\n  # \x7b\x7b render 'vite', entry: 'entryName', import_mode: true, only_js: true, dynamic_import: true, import_name: '\x7b funcName \x7d' \x7d\x7d\n  #\n  # ------------------------------------------------------------\n\n  assign style_files = ''\n  assign js_files = ''\n  assign css = true\n  assign js = true\n\n  if entry == blank\n    echo '<script>(() => \x7b'\n    echo 'const path = '\n    echo 'vite.js' | asset_url | split: 'vite' | first | split: '.com' | last | json\n    echo ';window._viteAssetPath = (filename) => path + filename;'\n    echo '\x7d)()</script>'\n  endif\n\n  if only_js\n    assign css = false\n  elsif only_css\n    assign js = false\n  endif\n\n  if import_mode\n    if only_css\n      assign js = false\n    else\n      assign css = false\n    endif\n  endif\n"

/-- The fixed epilogue of the generated snippet (the template literal
`snippetEnd`). -/
def snippetEnd : String :=
  "\n  assign style_files_arr = style_files | split: '|'\n  assign js_files_arr = js_files | split: '|'\n\n  if css\n    for style_file in style_files_arr\n      if import_mode\n        echo '@import url(\"'\n        echo style_file | asset_url | split: '?' | first \n        echo '\");'\n      else\n        echo style_file | asset_url | split: '?' | first | stylesheet_tag: preload: preload_stylesheet\n      endif\n    endfor\n  endif\n\n  if js\n    for js_file in js_files_arr\n      if import_mode and import_name != blank\n        if dynamic_import\n          echo 'const '\n          echo import_name\n          echo ' = '\n          echo 'await import(\"'\n          echo js_file | asset_url | split: '?' | first\n          echo '\");'\n        else\n          echo 'import '\n          echo import_name\n          echo ' from \"'\n          echo js_file | asset_url | split: '?' | first\n          echo '\";'\n        endif\n      else\n        echo '<script src=\"'\n        echo js_file | asset_url | split: '?' | first \n        echo '\" type=\"module\" crossorigin=\"anonymous\"></script>'\n      endif\n    endfor\n  endif\n"

/-- The `manifestValues.forEach` loop of `closeBundle`, kept as the list of
`(entryName, joined assets)` pairs pushed for the records with
`isEntry === true`; `none` when resolving any entry fails (the thrown
exception in the source). -/
def snippetPairsGo (input : List (String × String)) (m : Manifest) (fuel : Nat) :
    List ManifestEntry → Option (List (String × String))
  | [] => some []
  | e :: rest =>
    if e.isEntry = true then
      match resolveEntry m fuel e with
      | none => none
      | some (s, j) =>
        (snippetPairsGo input m fuel rest).map
          (fun ps => (resolveEntryName input e, String.join (entryAssets s j)) :: ps)
    else snippetPairsGo input m fuel rest

/-- The `(entryName, assets)` pairs for a whole manifest, in manifest
iteration order (`Object.values`). -/
def snippetPairs (input : List (String × String)) (m : Manifest) (fuel : Nat) :
    Option (List (String × String)) :=
  snippetPairsGo input m fuel (m.map Prod.snd)

/-- The source's `allEntries` array: the rendered dispatch branches. -/
def allEntries (input : List (String × String)) (m : Manifest) (fuel : Nat) :
    Option (List String) :=
  (snippetPairs input m fuel).map (List.map fun p => entryTag p.1 p.2)

/-- The full text written to the snippet file by `closeBundle`. -/
def snippetText (input : List (String × String)) (m : Manifest) (fuel : Nat) :
    Option String :=
  (allEntries input m fuel).map fun es =>
    "\x7b%- liquid" ++ snippetStart ++ "\n  case entry" ++ String.join es
      ++ "\n  endcase\n" ++ snippetEnd ++ "\n-%\x7d"

/-- Observable file-system effects of one `closeBundle` run. -/
structure CloseBundleEffects where
  wroteSnippet : Bool
  deletedManifest : Bool
  deriving Repr, DecidableEq

/-- The `closeBundle` hook as an effect summary.  The environment supplies
whether the manifest file exists (`checkFileExists`), the result of
`JSON.parse` on its bytes (`parsed`, `none` for malformed JSON), and
whether `writeFile` succeeds (`writeOk`).  Every failure after the
existence check is caught by the hook's `try`/`catch`, so the hook never
throws: the snippet is not written and the manifest is not deleted.  After
a successful write the manifest is unlinked unless
`resolvedConfig.mode === 'development'`. -/
def closeBundle (mode : String) (manifestExists : Bool) (parsed : Option Manifest)
    (input : List (String × String)) (fuel : Nat) (writeOk : Bool) : CloseBundleEffects :=
  if manifestExists = false then ⟨false, false⟩
  else
    match parsed with
    | none => ⟨false, false⟩
    | some m =>
      match snippetText input m fuel with
      | none => ⟨false, false⟩
      | some _ =>
        if writeOk = false then ⟨false, false⟩
        else ⟨true, !(mode == "development")⟩

/-- The set of files unlinked by the cleanup plugin's `writeBundle` hook:
the files of the output directory whose name the configured
`fileNameRegex` accepts and that are absent from the bundle's keys. -/
def writeBundleDeleted (pat : String → Bool) (bundleKeys files : List String) :
    List String :=
  files.filter fun f => pat f && !(bundleKeys.contains f)

/-- The example pattern of the cleanup hook's documentation, the literal
regex over min, then the alternation of js and css, end-anchored. -/
def minRegex : RegularExpression Char :=
  mstr ['.', 'm', 'i', 'n', '.'] * (mstr ['j', 's'] + mstr ['c', 's', 's'])

/-- `DEFAULT_OUT_DIR`. -/
def defaultOutDir : String := "./assets"

/-- The output directory recorded by the dist plugins' `configResolved`
hooks: `config.build?.outDir ?? outDir`, verbatim. -/
def distConfigOutDir (cfg : Option String) : String := cfg.getD defaultOutDir

/-- JavaScript `outDir.endsWith(slash)`. -/
def jsEndsWithSlash (s : String) : Bool := s.data.getLast? == some '/'

/-- The output directory recorded by the legacy single-plugin source's
`config` hook: the configured value (defaulted) with one trailing slash
sliced off. -/
def legacyConfigOutDir (cfg : Option String) : String :=
  let d := cfg.getD defaultOutDir
  if jsEndsWithSlash d then String.mk d.data.dropLast else d


/-! ### Concrete sample data used by the witness theorems -/

/-- A stylesheet entry record. -/
def entryCssW : ManifestEntry :=
  { isEntry := true, src := "src/app.css", file := "app.hash.css" }

/-- A script entry that imports `moduleAW`. -/
def entryMainW : ManifestEntry :=
  { isEntry := true, src := "src/main.js", file := "main.hash.js", imports := ["src/a.js"] }

/-- A script chunk that imports the stylesheet record `styleSW`. -/
def moduleAW : ManifestEntry :=
  { src := "src/a.js", file := "a.hash.js", imports := ["src/s.css"] }

/-- A stylesheet record two hops from `entryMainW`. -/
def styleSW : ManifestEntry :=
  { src := "src/s.css", file := "s.hash.css" }

/-- A manifest with a two-hop chain entry, script, stylesheet. -/
def manifestTwoHopW : Manifest :=
  [("src/main.js", entryMainW), ("src/a.js", moduleAW), ("src/s.css", styleSW)]

/-- A script entry whose own `css` list shares a file with its import's. -/
def entryDedupW : ManifestEntry :=
  { isEntry := true, src := "src/e.js", file := "e.hash.js",
    css := ["shared.css"], imports := ["src/a.js"] }

/-- A chunk declaring `shared.css` a second time. -/
def moduleDedupW : ManifestEntry :=
  { src := "src/a.js", file := "a.hash.js", css := ["shared.css", "b.css"] }

/-- A manifest in which `shared.css` is declared twice. -/
def manifestDedupW : Manifest :=
  [("src/e.js", entryDedupW), ("src/a.js", moduleDedupW)]

/-- The entry of the spec's end-to-end scenario. -/
def entryThemeW : ManifestEntry :=
  { isEntry := true, src := "src/theme.js", file := "theme.abc123.js",
    css := ["theme.css"], imports := ["src/utils.js"] }

/-- The non-entry chunk of the spec's end-to-end scenario. -/
def chunkUtilsW : ManifestEntry :=
  { src := "src/utils.js", file := "utils.def456.js" }

/-- The manifest of the spec's end-to-end scenario. -/
def manifestScenarioW : Manifest :=
  [("src/theme.js", entryThemeW), ("src/utils.js", chunkUtilsW)]

/-- The configured input of the spec's end-to-end scenario. -/
def inputScenarioW : List (String × String) := [("theme", "./src/theme.js")]

/-- An entry with no manifest `name` and no matching configured input. -/
def entryNoNameW : ManifestEntry :=
  { isEntry := true, src := "src/theme.js", file := "theme.abc123.js" }

/-! ### Unfolding equations for the traversal -/

theorem handleEntryImports_zero (m : Manifest) (e : ManifestEntry) (acc : List String) :
    handleEntryImports m 0 e acc = none := rfl

theorem handleEntryImports_succ (m : Manifest) (fuel : Nat) (e : ManifestEntry)
    (acc : List String) :
    handleEntryImports m (fuel + 1) e acc =
      if isStyles e.src then some (addUnique acc e.file)
      else handleImportsList m fuel e.imports (e.css.foldl addUnique acc) := rfl

theorem handleImportsList_nil (m : Manifest) (fuel : Nat) (acc : List String) :
    handleImportsList m fuel [] acc = some acc := rfl

theorem handleImportsList_cons (m : Manifest) (fuel : Nat) (imp : String)
    (rest : List String) (acc : List String) :
    handleImportsList m fuel (imp :: rest) acc =
      (match manifestLookup m imp with
       | none => none
       | some e2 => handleEntryImports m fuel e2 acc).bind
        (fun acc2 => handleImportsList m fuel rest acc2) := rfl

/-! ### Facts about the insertion-ordered set -/

theorem addUnique_of_mem {l : List String} {x : String} (h : x ∈ l) : addUnique l x = l := by
  simp [addUnique, h]

theorem addUnique_of_not_mem {l : List String} {x : String} (h : ¬ x ∈ l) :
    addUnique l x = l ++ [x] := by
  simp [addUnique, h]

theorem addUnique_extends (l : List String) (x : String) : l <+: addUnique l x := by
  by_cases h : x ∈ l
  · rw [addUnique_of_mem h]
  · rw [addUnique_of_not_mem h]
    exact l.prefix_append [x]

theorem addUnique_nodup {l : List String} (x : String) (h : l.Nodup) :
    (addUnique l x).Nodup := by
  by_cases hx : x ∈ l
  · rwa [addUnique_of_mem hx]
  · rw [addUnique_of_not_mem hx, ← List.concat_eq_append]
    exact h.concat hx

theorem mem_addUnique_self (l : List String) (x : String) : x ∈ addUnique l x := by
  by_cases h : x ∈ l
  · rwa [addUnique_of_mem h]
  · rw [addUnique_of_not_mem h]
    exact List.mem_append_right l (List.mem_singleton_self x)

theorem foldl_addUnique_extends (cs : List String) :
    ∀ l : List String, l <+: cs.foldl addUnique l := by
  induction cs with
  | nil => intro l; exact List.prefix_refl l
  | cons c cs ih =>
    intro l
    exact (addUnique_extends l c).trans (ih (addUnique l c))

theorem foldl_addUnique_nodup (cs : List String) :
    ∀ l : List String, l.Nodup → (cs.foldl addUnique l).Nodup := by
  induction cs with
  | nil => intro l h; exact h
  | cons c cs ih =>
    intro l h
    exact ih (addUnique l c) (addUnique_nodup c h)

/-! ### Preservation: the traversal only appends new style files -/

theorem importsList_pres_param (m : Manifest) (fuel : Nat)
    (H : ∀ e acc out, handleEntryImports m fuel e acc = some out →
      acc <+: out ∧ (acc.Nodup → out.Nodup)) :
    ∀ (l : List String) (acc out : List String),
      handleImportsList m fuel l acc = some out →
        acc <+: out ∧ (acc.Nodup → out.Nodup) := by
  intro l
  induction l with
  | nil =>
    intro acc out h
    rw [handleImportsList_nil] at h
    cases h
    exact ⟨List.prefix_refl acc, fun hn => hn⟩
  | cons i rest ih =>
    intro acc out h
    rw [handleImportsList_cons] at h
    rcases Option.bind_eq_some.mp h with ⟨acc2, h1, h2⟩
    cases hl : manifestLookup m i with
    | none => rw [hl] at h1; cases h1
    | some e2 =>
      rw [hl] at h1
      obtain ⟨p1, n1⟩ := H e2 acc acc2 h1
      obtain ⟨p2, n2⟩ := ih acc2 out h2
      exact ⟨p1.trans p2, fun hn => n2 (n1 hn)⟩

theorem entryImports_pres (m : Manifest) :
    ∀ (fuel : Nat) (e : ManifestEntry) (acc out : List String),
      handleEntryImports m fuel e acc = some out →
        acc <+: out ∧ (acc.Nodup → out.Nodup) := by
  intro fuel
  induction fuel with
  | zero => intro e acc out h; cases h
  | succ fuel ih =>
    intro e acc out h
    rw [handleEntryImports_succ] at h
    by_cases hs : isStyles e.src = true
    · rw [if_pos hs] at h
      cases h
      exact ⟨addUnique_extends acc e.file, addUnique_nodup e.file⟩
    · rw [if_neg hs] at h
      obtain ⟨p2, n2⟩ := importsList_pres_param m fuel ih e.imports _ out h
      exact ⟨(foldl_addUnique_extends e.css acc).trans p2,
        fun hn => n2 (foldl_addUnique_nodup e.css acc hn)⟩

theorem importsList_pres (m : Manifest) (fuel : Nat) :
    ∀ (l : List String) (acc out : List String),
      handleImportsList m fuel l acc = some out →
        acc <+: out ∧ (acc.Nodup → out.Nodup) :=
  importsList_pres_param m fuel (entryImports_pres m fuel)

/-! ### Extraction: every import processed by a successful loop run -/

theorem importsList_extract (m : Manifest) (fuel : Nat) (imp : String) :
    ∀ (l : List String) (acc out : List String), imp ∈ l →
      handleImportsList m fuel l acc = some out →
        ∃ e2 a1 o1, manifestLookup m imp = some e2 ∧
          handleEntryImports m fuel e2 a1 = some o1 ∧ ∀ x ∈ o1, x ∈ out := by
  intro l
  induction l with
  | nil => intro acc out hm; cases hm
  | cons i rest ih =>
    intro acc out hm h
    rw [handleImportsList_cons] at h
    rcases Option.bind_eq_some.mp h with ⟨acc2, h1, h2⟩
    cases hl : manifestLookup m i with
    | none => rw [hl] at h1; cases h1
    | some e2 =>
      rw [hl] at h1
      rcases List.mem_cons.mp hm with heq | hrest
      · subst heq
        exact ⟨e2, acc, acc2, hl, h1,
          fun x hx => ((importsList_pres m fuel rest acc2 out h2).1).subset hx⟩
      · exact ih acc2 out hrest h2

/-! ### Reachability through script records -/

/-- A chain of `imports` edges from `a` to `c` that passes only through
script-source records (every node that is recursed out of is a script). -/
inductive ScriptReach (m : Manifest) : ManifestEntry → ManifestEntry → Prop where
  | refl (e : ManifestEntry) : ScriptReach m e e
  | step {a b c : ManifestEntry} {imp : String} (ha : isStyles a.src = false)
      (hmem : imp ∈ a.imports) (hlook : manifestLookup m imp = some b)
      (hbc : ScriptReach m b c) : ScriptReach m a c

theorem reach_style_mem (m : Manifest) {a r : ManifestEntry} (hr : ScriptReach m a r) :
    isStyles r.src = true →
      ∀ (fuel : Nat) (acc out : List String),
        handleEntryImports m fuel a acc = some out → r.file ∈ out := by
  induction hr with
  | refl e =>
    intro hstyle fuel acc out h
    cases fuel with
    | zero => cases h
    | succ fuel =>
      rw [handleEntryImports_succ, if_pos hstyle] at h
      cases h
      exact mem_addUnique_self acc e.file
  | @step a b c imp ha hmem hlook _ ih =>
    intro hstyle fuel acc out h
    cases fuel with
    | zero => cases h
    | succ fuel =>
      have hneg : ¬ (isStyles a.src = true) := by rw [ha]; exact Bool.false_ne_true
      rw [handleEntryImports_succ, if_neg hneg] at h
      obtain ⟨e2, a1, o1, hl2, he2, hsub⟩ := importsList_extract m fuel imp a.imports _ out hmem h
      have hbe : e2 = b := Option.some.inj (hl2.symm.trans hlook)
      subst hbe
      exact hsub _ (ih hstyle fuel a1 o1 he2)

/-! ### Facts about per-entry resolution -/

theorem resolveEntry_some_pos {m : Manifest} {fuel : Nat} {e : ManifestEntry}
    {x : List String × List String} (h : resolveEntry m fuel e = some x) : 0 < fuel := by
  cases fuel with
  | zero => cases h
  | succ fuel => exact Nat.succ_pos fuel

theorem resolveEntry_styles {m : Manifest} {fuel : Nat} {e : ManifestEntry}
    {s j : List String} (h : resolveEntry m fuel e = some (s, j)) :
    handleEntryImports m fuel e [] = some s := by
  rcases Option.map_eq_some'.mp h with ⟨styles, hst, heq⟩
  cases heq
  exact hst

theorem resolveEntry_scripts {m : Manifest} {fuel : Nat} {e : ManifestEntry}
    {s j : List String} (h : resolveEntry m fuel e = some (s, j)) :
    j = if isStyles e.src then [] else [e.file] := by
  rcases Option.map_eq_some'.mp h with ⟨styles, hst, heq⟩
  cases heq
  rfl

theorem resolveEntry_style_eq (m : Manifest) {fuel : Nat} (e : ManifestEntry)
    (hs : isStyles e.src = true) (hf : 0 < fuel) :
    resolveEntry m fuel e = some ([e.file], []) := by
  cases fuel with
  | zero => cases hf
  | succ fuel =>
    simp [resolveEntry, handleEntryImports_succ, hs, addUnique]

/-! ### The claims about the traversal -/

/-- C2: for an entry whose own source is a script, any record with a
stylesheet source reachable from the entry through a chain of `imports`
keys passing only through script-source records has its `file` in the
entry's resolved style set. -/
theorem style_transitivity {m : Manifest} {fuel : Nat} {e r : ManifestEntry}
    {s j : List String} (_he : isStyles e.src = false) (hr : ScriptReach m e r)
    (hstyle : isStyles r.src = true) (h : resolveEntry m fuel e = some (s, j)) :
    r.file ∈ s :=
  reach_style_mem m hr hstyle fuel [] s (resolveEntry_styles h)

theorem style_transitivity_witness :
    ("s.hash.css" : String) ∈ (["s.hash.css"] : List String) :=
  style_transitivity (by decide)
    (@ScriptReach.step manifestTwoHopW entryMainW moduleAW styleSW "src/a.js"
      (by decide) (by decide) (by decide)
      (@ScriptReach.step manifestTwoHopW moduleAW styleSW styleSW "src/s.css"
        (by decide) (by decide) (by decide)
        (ScriptReach.refl styleSW)))
    (by decide)
    (show resolveEntry manifestTwoHopW 3 entryMainW = some (["s.hash.css"], ["main.hash.js"])
      by decide)

/-- C3: an entry whose own source is a stylesheet resolves to the style set
holding exactly its own `file` (its `css` and `imports` are never read:
the result is the same for every value of those fields) and to an empty
script set. -/
theorem leaf_stylesheet_rule (m : Manifest) {fuel : Nat} (e : ManifestEntry)
    (_hentry : e.isEntry = true) (hs : isStyles e.src = true) (hf : 0 < fuel) :
    resolveEntry m fuel e = some ([e.file], []) :=
  resolveEntry_style_eq m e hs hf

theorem leaf_stylesheet_rule_witness :
    resolveEntry [] 1 entryCssW = some (["app.hash.css"], []) :=
  leaf_stylesheet_rule [] entryCssW rfl (by decide) (by decide)

/-- C4: a resolved style set holds each output path at most once
(`Nodup`); a path already present is silently dropped (`addUnique`
returns the set unchanged), and a successful traversal only ever appends
to the set it is given, so the position of a first occurrence never
changes. -/
theorem dedup_with_order {m : Manifest} {fuel : Nat} {e : ManifestEntry}
    {s j : List String} (h : resolveEntry m fuel e = some (s, j)) :
    s.Nodup ∧ (∀ (acc : List String) (x : String), x ∈ acc → addUnique acc x = acc) ∧
    (∀ (fuel2 : Nat) (e2 : ManifestEntry) (acc out : List String),
      handleEntryImports m fuel2 e2 acc = some out → acc <+: out) := by
  refine ⟨?_, fun acc x hx => addUnique_of_mem hx,
    fun fuel2 e2 acc out h2 => (entryImports_pres m fuel2 e2 acc out h2).1⟩
  exact (entryImports_pres m fuel e [] s (resolveEntry_styles h)).2 List.nodup_nil

theorem dedup_with_order_witness :
    (["shared.css", "b.css"] : List String).Nodup ∧
    (∀ (acc : List String) (x : String), x ∈ acc → addUnique acc x = acc) ∧
    (∀ (fuel2 : Nat) (e2 : ManifestEntry) (acc out : List String),
      handleEntryImports manifestDedupW fuel2 e2 acc = some out → acc <+: out) :=
  dedup_with_order
    (show resolveEntry manifestDedupW 3 entryDedupW
        = some (["shared.css", "b.css"], ["e.hash.js"]) by decide)

/-- C10: a successfully resolved entry always pushes at least one
assignment into its branch: a stylesheet entry has a non-empty style set
and every other entry has a non-empty script set, so the `assets` array
of the branch is never empty. -/
theorem branch_has_assignment {m : Manifest} {fuel : Nat} {e : ManifestEntry}
    {s j : List String} (h : resolveEntry m fuel e = some (s, j)) :
    entryAssets s j ≠ [] := by
  cases hs : isStyles e.src with
  | true =>
    rw [resolveEntry_style_eq m e hs (resolveEntry_some_pos h)] at h
    cases h
    simp [entryAssets]
  | false =>
    have hj := resolveEntry_scripts h
    rw [hs] at hj
    simp at hj
    subst hj
    simp [entryAssets]

theorem branch_has_assignment_witness :
    entryAssets ["shared.css", "b.css"] ["e.hash.js"] ≠ [] :=
  branch_has_assignment
    (show resolveEntry manifestDedupW 3 entryDedupW
        = some (["shared.css", "b.css"], ["e.hash.js"]) by decide)

/-! ### The claim about the dispatch table -/

theorem snippetPairsGo_keys (input : List (String × String)) (m : Manifest) (fuel : Nat) :
    ∀ (es : List ManifestEntry) (ps : List (String × String)),
      snippetPairsGo input m fuel es = some ps →
        ps.map Prod.fst = (es.filter fun e => e.isEntry).map (resolveEntryName input) := by
  intro es
  induction es with
  | nil =>
    intro ps h
    cases h
    rfl
  | cons e rest ih =>
    intro ps h
    by_cases he : e.isEntry = true
    · rw [snippetPairsGo, if_pos he] at h
      cases hres : resolveEntry m fuel e with
      | none => rw [hres] at h; cases h
      | some sj =>
        rw [hres] at h
        rcases sj with ⟨s, j⟩
        rcases Option.map_eq_some'.mp h with ⟨ps2, hps2, heq⟩
        subst heq
        rw [List.filter_cons_of_pos he]
        simp only [List.map_cons]
        rw [ih ps2 hps2]
    · rw [snippetPairsGo, if_neg he] at h
      rw [List.filter_cons_of_neg (by simpa using he)]
      exact ih ps h

/-- C1: when the dispatch table is generated, its branch keys are exactly
the resolved names of the manifest records with `isEntry === true`, one
branch per such record, in manifest iteration order; records whose
`isEntry` is not `true` contribute no branch.  The rendered branches are
the `entryTag` of each pair. -/
theorem dispatch_completeness (input : List (String × String)) (m : Manifest) (fuel : Nat)
    (ps : List (String × String)) (h : snippetPairs input m fuel = some ps) :
    ps.map Prod.fst = ((m.map Prod.snd).filter fun e => e.isEntry).map (resolveEntryName input) ∧
    allEntries input m fuel = some (ps.map fun p => entryTag p.1 p.2) := by
  refine ⟨snippetPairsGo_keys input m fuel (m.map Prod.snd) ps h, ?_⟩
  rw [allEntries, h]
  rfl

theorem dispatch_completeness_witness :
    ([("theme", String.join (entryAssets ["theme.css"] ["theme.abc123.js"]))].map Prod.fst
      = ((manifestScenarioW.map Prod.snd).filter fun e => e.isEntry).map
          (resolveEntryName inputScenarioW)) ∧
    allEntries inputScenarioW manifestScenarioW 3
      = some (([("theme", String.join (entryAssets ["theme.css"] ["theme.abc123.js"]))].map
          fun p => entryTag p.1 p.2)) :=
  dispatch_completeness inputScenarioW manifestScenarioW 3
    [("theme", String.join (entryAssets ["theme.css"] ["theme.abc123.js"]))] (by decide)

/-! ### The claim about entry naming -/

/-- C5: entry naming falls back in order: the manifest `name` when
present, else the configured input key whose value (with a leading
dot-slash stripped) equals the entry's `src`, else the substring of `src`
between its last slash and its last dot; in particular a nameless,
unconfigured `src/theme.js` entry is named `theme`. -/
theorem naming_fallback_chain (input : List (String × String)) (e : ManifestEntry) :
    (∀ n, e.name = some n → resolveEntryName input e = n) ∧
    (∀ k, e.name = none → entryNameByPath input e.src = some k →
      resolveEntryName input e = k) ∧
    (e.name = none → entryNameByPath input e.src = none →
      resolveEntryName input e = jsStem e.src) ∧
    (∀ (pre : List (String × String)) (k v : String),
      entryNameByPath (pre ++ [(k, v)]) (stripDotSlash v) = some k) ∧
    jsStem "src/theme.js" = "theme" := by
  refine ⟨?_, ?_, ?_, ?_, by decide⟩
  · intro n hn
    simp [resolveEntryName, hn]
  · intro k hn hk
    simp [resolveEntryName, hn, hk]
  · intro hn hk
    simp [resolveEntryName, hn, hk]
  · intro pre k v
    simp [entryNameByPath, List.foldl_append]

theorem naming_fallback_chain_witness :
    resolveEntryName [] entryNoNameW = "theme" :=
  ((naming_fallback_chain [] entryNoNameW).2.2.1 rfl rfl).trans
    (naming_fallback_chain [] entryNoNameW).2.2.2.2

/-! ### The claim about the stylesheet classifier -/

theorem mstr_matches' (w : List Char) :
    ∀ x, x ∈ (mstr w).matches' ↔ x = w := by
  induction w with
  | nil =>
    intro x
    simp [mstr, RegularExpression.matches'_epsilon, Language.mem_one]
  | cons c cs ih =>
    intro x
    rw [mstr, RegularExpression.matches'_mul, Language.mem_mul]
    constructor
    · rintro ⟨a, ha, b, hb, heq⟩
      rw [RegularExpression.matches'_char, Set.mem_singleton_iff] at ha
      rw [ih] at hb
      subst ha
      subst hb
      exact heq.symm
    · rintro rfl
      exact ⟨[c], by rw [RegularExpression.matches'_char]; rfl, cs, (ih cs).mpr rfl, rfl⟩

theorem styleRegex_words (x : List Char) :
    x ∈ styleRegex.matches' ↔
      x = ['.', 's', 'a', 's', 's'] ∨ x = ['.', 's', 'c', 's', 's'] ∨
        x = ['.', 'c', 's', 's'] := by
  constructor
  · intro hx
    rw [styleRegex, RegularExpression.matches'_mul, Language.mem_mul] at hx
    obtain ⟨ab, hab, c, hc, heq⟩ := hx
    rw [RegularExpression.matches'_mul, Language.mem_mul] at hab
    obtain ⟨d, hd, mid, hmid, heq2⟩ := hab
    rw [mstr_matches'] at hd hc
    rw [RegularExpression.matches'_add, Language.mem_add,
      RegularExpression.matches'_add, Language.mem_add] at hmid
    subst hd
    subst hc
    subst heq2
    subst heq
    rcases hmid with (hm | hm) | hm <;> rw [mstr_matches'] at hm <;> subst hm <;> simp
  · have hss : (['s', 's'] : List Char) ∈ (mstr ['s', 's']).matches' :=
      (mstr_matches' _ _).mpr rfl
    have hdot : (['.'] : List Char) ∈ (mstr ['.']).matches' :=
      (mstr_matches' _ _).mpr rfl
    rintro (rfl | rfl | rfl) <;>
      rw [styleRegex, RegularExpression.matches'_mul, Language.mem_mul]
    · refine ⟨['.', 's', 'a'], ?_, ['s', 's'], hss, rfl⟩
      rw [RegularExpression.matches'_mul, Language.mem_mul]
      refine ⟨['.'], hdot, ['s', 'a'], ?_, rfl⟩
      rw [RegularExpression.matches'_add, Language.mem_add,
        RegularExpression.matches'_add, Language.mem_add]
      exact Or.inl (Or.inl ((mstr_matches' _ _).mpr rfl))
    · refine ⟨['.', 's', 'c'], ?_, ['s', 's'], hss, rfl⟩
      rw [RegularExpression.matches'_mul, Language.mem_mul]
      refine ⟨['.'], hdot, ['s', 'c'], ?_, rfl⟩
      rw [RegularExpression.matches'_add, Language.mem_add,
        RegularExpression.matches'_add, Language.mem_add]
      exact Or.inl (Or.inr ((mstr_matches' _ _).mpr rfl))
    · refine ⟨['.', 'c'], ?_, ['s', 's'], hss, rfl⟩
      rw [RegularExpression.matches'_mul, Language.mem_mul]
      refine ⟨['.'], hdot, ['c'], ?_, rfl⟩
      rw [RegularExpression.matches'_add, Language.mem_add,
        RegularExpression.matches'_add, Language.mem_add]
      exact Or.inr ((mstr_matches' _ _).mpr rfl)

/-- C6: the stylesheet classifier accepts a source path exactly when the
path ends in one of the three stylesheet suffixes (case-sensitive). -/
theorem style_classification (s : String) :
    isStyles s = true ↔
      (".sass".data <:+ s.data ∨ ".scss".data <:+ s.data ∨ ".css".data <:+ s.data) := by
  have hsass : (".sass".data : List Char) = ['.', 's', 'a', 's', 's'] := rfl
  have hscss : (".scss".data : List Char) = ['.', 's', 'c', 's', 's'] := rfl
  have hcss : (".css".data : List Char) = ['.', 'c', 's', 's'] := rfl
  rw [isStyles, rTestEnd, List.any_eq_true, hsass, hscss, hcss]
  constructor
  · rintro ⟨i, _, hmatch⟩
    rw [RegularExpression.rmatch_iff_matches', styleRegex_words] at hmatch
    rcases hmatch with h | h | h
    · exact Or.inl (h ▸ List.drop_suffix i s.data)
    · exact Or.inr (Or.inl (h ▸ List.drop_suffix i s.data))
    · exact Or.inr (Or.inr (h ▸ List.drop_suffix i s.data))
  · intro h
    have key : ∀ w : List Char, w <:+ s.data → w ∈ styleRegex.matches' →
        ∃ i ∈ List.range (s.data.length + 1), styleRegex.rmatch (s.data.drop i) = true := by
      rintro w ⟨t, ht⟩ hw
      refine ⟨t.length, List.mem_range.mpr ?_, ?_⟩
      · have : t.length + w.length = s.data.length := by
          rw [← ht, List.length_append]
        omega
      · rw [← ht, List.drop_left, RegularExpression.rmatch_iff_matches']
        exact hw
    rcases h with h | h | h
    · exact key _ h ((styleRegex_words _).mpr (Or.inl rfl))
    · exact key _ h ((styleRegex_words _).mpr (Or.inr (Or.inl rfl)))
    · exact key _ h ((styleRegex_words _).mpr (Or.inr (Or.inr rfl)))

/-! ### The claim about `closeBundle` error handling -/

/-- C7: the manifest is deleted exactly when the manifest existed, its
JSON parsed, every entry resolved, the snippet write succeeded, and the
mode is not `development`; the snippet is written exactly under the first
four of those conditions.  `closeBundle` is a total function into effect
records: every failure inside the guarded region yields the no-effect
record instead of an error. -/
theorem manifest_deletion_iff (mode : String) (manifestExists : Bool)
    (parsed : Option Manifest) (input : List (String × String)) (fuel : Nat)
    (writeOk : Bool) :
    ((closeBundle mode manifestExists parsed input fuel writeOk).deletedManifest = true ↔
      (manifestExists = true ∧ ∃ m, parsed = some m ∧
        (∃ t, snippetText input m fuel = some t) ∧ writeOk = true ∧
        mode ≠ "development")) ∧
    ((closeBundle mode manifestExists parsed input fuel writeOk).wroteSnippet = true ↔
      (manifestExists = true ∧ ∃ m, parsed = some m ∧
        (∃ t, snippetText input m fuel = some t) ∧ writeOk = true)) := by
  cases manifestExists with
  | false => simp [closeBundle]
  | true =>
    cases parsed with
    | none => simp [closeBundle]
    | some m =>
      cases hst : snippetText input m fuel with
      | none => simp [closeBundle, hst]
      | some t =>
        cases writeOk with
        | false => simp [closeBundle, hst]
        | true => simp [closeBundle, hst]

/-! ### The claim about stale-asset cleanup -/

/-- C8: the cleanup hook deletes exactly the directory files that the
configured pattern accepts and that are absent from the bundle's output
keys; on the documented example only `a.min.js` is removed. -/
theorem cleanup_precision (pat : String → Bool) (bundleKeys files : List String) :
    (∀ f, f ∈ writeBundleDeleted pat bundleKeys files ↔
      (f ∈ files ∧ pat f = true ∧ ¬ f ∈ bundleKeys)) ∧
    writeBundleDeleted (fun f => rTestEnd minRegex f) ["b.min.js"]
      ["a.min.js", "b.min.js", "c.txt"] = ["a.min.js"] := by
  constructor
  · intro f
    simp [writeBundleDeleted, List.mem_filter, and_assoc]
  · decide

/-! ### The claim about the recorded output directory -/

/-- C9 as stated is false for the dist implementation: its
`configResolved` hooks record `build.outDir` verbatim, so a configured
trailing slash is kept, not removed. -/
theorem outdir_counterexample :
    distConfigOutDir (some "./assets/") = "./assets/" ∧
      ("./assets/" : String) ≠ "./assets" := by
  constructor
  · rfl
  · decide

/-- C9 (amended): the dist `configResolved` hooks record the configured
`build.outDir` (default `./assets`) verbatim; only the legacy
single-plugin source's `config` hook slices one trailing slash off the
recorded value. -/
theorem outdir_normalization (cfg : Option String) :
    distConfigOutDir cfg = cfg.getD defaultOutDir ∧
    (∀ s, jsEndsWithSlash s = true → legacyConfigOutDir (some s) = String.mk s.data.dropLast) ∧
    (∀ s, jsEndsWithSlash s = false → legacyConfigOutDir (some s) = s) ∧
    legacyConfigOutDir (some "./assets/") = "./assets" ∧
    legacyConfigOutDir none = defaultOutDir := by
  refine ⟨rfl, ?_, ?_, by decide, rfl⟩
  · intro s h
    simp [legacyConfigOutDir, h]
  · intro s h
    simp [legacyConfigOutDir, h]

theorem outdir_normalization_witness :
    jsEndsWithSlash "a/" = true ∧
      legacyConfigOutDir (some "a/") = String.mk "a/".data.dropLast :=
  ⟨by decide, (outdir_normalization (some "a/")).2.1 "a/" (by decide)⟩

end ShopifyVite

